import Mathlib

/-!
Verification development for `retro/tables/shift_and_bin.pyx` (function
`shift_and_bin`).

The Cython kernel is shallowly embedded here.  C doubles are modelled as
exact rationals (ℚ); C `int` values as ℤ and the nonnegative index values
(`unsigned int`) as ℕ.  The kernel's floating-point `1.0 / sqrt(x*x + y*y)`
normalization factor (line 309 of the source) is not a rational function, so
it is abstracted as an opaque parameter `invRho : ℚ → ℚ → ℚ` of the model;
no claim below depends on its value, and the positivity of the radicand fed
to the square root is proved separately.

Loop nests of the source are embedded as folds over `List.range`, executing
exactly the same loop bodies in exactly the same order; the six `+=`
accumulations of the innermost body (source lines 366-371) read only
loop-local values, so they are represented by a list of contribution records
(one per execution of the in-bounds innermost body) folded into the
sensor-local scratch arrays and into the shared output arrays.
-/

/-- Floor of a rational number.  C doubles are modelled as exact rationals,
so the mathematical floor is the model of a downward rounding. -/
def qfloor (q : ℚ) : ℤ := ⌊q⌋

/-- libc `round` (source line 30): nearest integer, halves rounded away from
zero. -/
def cround (q : ℚ) : ℤ := if 0 ≤ q then qfloor (q + 1/2) else -qfloor (-q + 1/2)

/-- Division of C `int` operands under `@cython.cdivision(True)` (source line
36): C `/` semantics, i.e. quotient truncated toward zero.  This is the
meaning of every `// oversample` in the kernel (source lines 315, 318, 335-336,
342-343, 349-350, 356-357). -/
def osDiv (a b : ℤ) : ℤ := a.tdiv b

/-- A caller-owned output array: its length (checked against `nx*ny*nz`,
source line 259) and its contents.  Writes carry no bounds check, mirroring
`@cython.boundscheck(False)`. -/
structure QArr where
  len : ℕ
  val : ℕ → ℚ

/-- In-place `a[k] += x` on an output array. -/
def QArr.addAt (a : QArr) (k : ℕ) (x : ℚ) : QArr :=
  { a with val := Function.update a.val k (a.val k + x) }

/-- The five caller-owned accumulator arrays mutated by the kernel
(source parameters `binned_spv`, `binned_px_spv`, `binned_py_spv`,
`binned_pz_spv`, `binned_one_minus_sp`). -/
structure SBState where
  binned_spv : QArr
  binned_px_spv : QArr
  binned_py_spv : QArr
  binned_pz_spv : QArr
  binned_one_minus_sp : QArr

/-- All read-only inputs of `shift_and_bin` except the sensor coordinate
list (which, as in the source signature, is passed separately). -/
structure SBParams where
  ind_arrays : List (List (ℕ × ℕ × ℕ))
  vol_arrays : List (List ℚ)
  survival_prob : ℕ → ℕ → ℚ
  prho : ℕ → ℕ → ℚ
  pz : ℕ → ℕ → ℚ
  nr : ℕ
  ntheta : ℕ
  r_max : ℚ
  x_min : ℚ
  x_max : ℚ
  y_min : ℚ
  y_max : ℚ
  z_min : ℚ
  z_max : ℚ
  binwidth : ℚ
  oversample : ℤ
  anisotropy : Option Unit
  invRho : ℚ → ℚ → ℚ

/-- `os_bw = binwidth / <double>oversample` (source line 206). -/
def os_bw (p : SBParams) : ℚ := p.binwidth / (p.oversample : ℚ)

/-- `inv_os_bw = 1.0 / os_bw` (source line 207). -/
def inv_os_bw (p : SBParams) : ℚ := 1 / os_bw p

/-- `half_os_bw = os_bw / 2.0` (source line 209). -/
def half_os_bw (p : SBParams) : ℚ := os_bw p / 2

/-- `nx = <unsigned int>round((x_max - x_min) / binwidth)` (source line 211). -/
def nxOf (p : SBParams) : ℕ := (cround ((p.x_max - p.x_min) / p.binwidth)).toNat

/-- `ny = <unsigned int>round((y_max - y_min) / binwidth)` (source line 212). -/
def nyOf (p : SBParams) : ℕ := (cround ((p.y_max - p.y_min) / p.binwidth)).toNat

/-- `nz = <unsigned int>round((z_max - z_min) / binwidth)` (source line 213). -/
def nzOf (p : SBParams) : ℕ := (cround ((p.z_max - p.z_min) / p.binwidth)).toNat

/-- Number of cells of the flattened output grid, `nx*ny*nz`. -/
def nxyz (p : SBParams) : ℕ := nxOf p * nyOf p * nzOf p

/-- `ntheta_in_quad = <unsigned int>ceil(<double>ntheta / 2.0)` (source line
225), i.e. `⌈ntheta/2⌉`. -/
def nthetaInQuad (p : SBParams) : ℕ := (p.ntheta + 1) / 2

/-- `flat_pol_idx = theta_idx + r_idx*ntheta_in_quad` (source line 295). -/
def flatPolIdx (p : SBParams) (r θ : ℕ) : ℕ := θ + r * nthetaInQuad p

/-- Oversampled-lattice bin-center coordinate of an unsigned first-octant
cell offset: `<double>idx * os_bw + half_os_bw` (source lines 307-308). -/
def binCenter (p : SBParams) (i : ℕ) : ℚ := (i : ℚ) * os_bw p + half_os_bw p

/-- Hemisphere branch on the z cell offset (source lines 314-318):
branch 0 keeps `z`, branch 1 maps `z` to `-1-z`. -/
def hemiZ (zo : ℕ) (hemi : ℕ) : ℤ := if hemi = 0 then (zo : ℤ) else -1 - (zo : ℤ)

/-- Hemisphere branch on the angular bin index (source lines 316, 319):
branch 0 keeps `θ`, branch 1 maps `θ` to `ntheta - 1 - θ`. -/
def hemiTheta (ntheta θ : ℕ) (hemi : ℕ) : ℕ := if hemi = 0 then θ else ntheta - 1 - θ

/-- Quadrant branch on the (x, y) cell offsets (source lines 333-357):
quadrant 0 is the identity, quadrant 1 maps (x, y) to (-1-y, x), quadrant 2
to (-1-x, -1-y), quadrant 3 to (y, -1-x). -/
def quadXY (xo yo : ℕ) (quad : ℕ) : ℤ × ℤ :=
  match quad with
  | 0 => ((xo : ℤ), (yo : ℤ))
  | 1 => (-1 - (yo : ℤ), (xo : ℤ))
  | 2 => (-1 - (xo : ℤ), -1 - (yo : ℤ))
  | _ => ((yo : ℤ), -1 - (xo : ℤ))

/-- Quadrant branch on the direction components (source lines 337-359):
quadrant 0 keeps (dx, dy), quadrant 1 maps it to (-dy, dx), quadrant 2 to
(-dx, -dy), quadrant 3 to (dy, -dx). -/
def quadDir (dx dy : ℚ) (quad : ℕ) : ℚ × ℚ :=
  match quad with
  | 0 => (dx, dy)
  | 1 => (-dy, dx)
  | 2 => (-dx, -dy)
  | _ => (dy, -dx)

/-- One execution of the innermost in-bounds loop body (source lines
365-371): the flattened output cell and the four quantities accumulated
there, plus the overlap volume added to the sensor-local scratch. -/
structure Contrib where
  k : ℕ
  vol : ℚ
  spv : ℚ
  pxspv : ℚ
  pyspv : ℚ
  pzspv : ℚ

/-- Body of the quadrant loop (source lines 333-371) for one symmetry
branch: computes the final x and y indices by shifting with the sensor's
oversampled position and dividing by the oversample factor, drops the branch
if out of the grid (source lines 361-362), and otherwise reports the
contribution record of the innermost body. -/
def quadContrib (p : SBParams) (dxos dyos z_idx : ℤ) (xo yo : ℕ)
    (pxf pyf spv vol pz2 : ℚ) (quad : ℕ) : Option Contrib :=
  let xy := quadXY xo yo quad
  let dir := quadDir pxf pyf quad
  let x_idx := osDiv (xy.1 + dxos) p.oversample
  let y_idx := osDiv (xy.2 + dyos) p.oversample
  if x_idx < 0 ∨ (nxOf p : ℤ) ≤ x_idx ∨ y_idx < 0 ∨ (nyOf p : ℤ) ≤ y_idx then
    none
  else
    some ⟨(x_idx * ((nyOf p : ℤ) * (nzOf p : ℤ)) + y_idx * (nzOf p : ℤ) + z_idx).toNat,
          vol, spv, dir.1 * spv, dir.2 * spv, pz2 * spv⟩

/-- Body of the hemisphere loop (source lines 313-371) for one hemisphere:
computes the final z index and the reflected angular bin, drops the branch if
z is out of the grid (source lines 321-322), reads the survival probability
and direction fields at the branch-adjusted polar bin (source lines 324-331),
and runs the four quadrant branches. -/
def hemiContribs (p : SBParams) (dxos dyos dzos : ℤ) (r θ xo yo zo : ℕ)
    (vol px_un py_un : ℚ) (hemi : ℕ) : List Contrib :=
  let z_idx := osDiv (hemiZ zo hemi + dzos) p.oversample
  let θ2 := hemiTheta p.ntheta θ hemi
  if z_idx < 0 ∨ (nzOf p : ℤ) ≤ z_idx then
    []
  else
    let sp := p.survival_prob r θ2
    let spv := sp * vol
    let prho2 := p.prho r θ2
    let pz2 := p.pz r θ2
    let pxf := px_un * prho2
    let pyf := py_un * prho2
    (List.range 4).filterMap (quadContrib p dxos dyos z_idx xo yo pxf pyf spv vol pz2)

/-- Body of the loop over one overlap-mapping entry (source lines 297-371):
computes the azimuthal unit direction of the first-octant bin center (source
lines 307-311, with the floating `1/sqrt` factor abstracted as `p.invRho`)
and runs both hemisphere branches. -/
def entryContribs (p : SBParams) (dxos dyos dzos : ℤ) (r θ xo yo zo : ℕ)
    (vol : ℚ) : List Contrib :=
  let pxu0 := binCenter p xo
  let pyu0 := binCenter p yo
  let nrm := p.invRho pxu0 pyu0
  (List.range 2).flatMap
    (hemiContribs p dxos dyos dzos r θ xo yo zo vol (pxu0 * nrm) (pyu0 * nrm))

/-- All contribution records produced for one sensor by the loop nest over
first-octant polar bins and overlap-mapping entries (source lines 286-371),
in execution order.  `d` is the sensor coordinate triple. -/
def domContribs (p : SBParams) (d : ℚ × ℚ × ℚ) : List Contrib :=
  let dxos := cround ((d.1 - p.x_min) * inv_os_bw p)
  let dyos := cround ((d.2.1 - p.y_min) * inv_os_bw p)
  let dzos := cround ((d.2.2 - p.z_min) * inv_os_bw p)
  (List.range p.nr).flatMap (fun r =>
    (List.range (nthetaInQuad p)).flatMap (fun θ =>
      let j := flatPolIdx p r θ
      (List.range ((p.vol_arrays.getD j []).length)).flatMap (fun ix =>
        let e := (p.ind_arrays.getD j []).getD ix (0, 0, 0)
        let vol := (p.vol_arrays.getD j []).getD ix 0
        entryContribs p dxos dyos dzos r θ e.1 e.2.1 e.2.2 vol)))

/-- The `dom_binned_vol[...] += vol` and `dom_binned_spv[...] += spv`
statements of the innermost body (source lines 366-367). -/
def localStep (lv : (ℕ → ℚ) × (ℕ → ℚ)) (c : Contrib) : (ℕ → ℚ) × (ℕ → ℚ) :=
  (Function.update lv.1 c.k (lv.1 c.k + c.vol),
   Function.update lv.2 c.k (lv.2 c.k + c.spv))

/-- The four `+=` statements of the innermost body that target the shared
output arrays (source lines 368-371). -/
def sharedStep (s : SBState) (c : Contrib) : SBState :=
  { s with
    binned_spv := s.binned_spv.addAt c.k c.spv
    binned_px_spv := s.binned_px_spv.addAt c.k c.pxspv
    binned_py_spv := s.binned_py_spv.addAt c.k c.pyspv
    binned_pz_spv := s.binned_pz_spv.addAt c.k c.pzspv }

/-- The sensor-local scratch arrays `dom_binned_vol` and `dom_binned_spv`
(source lines 232-233), zeroed per sensor (source lines 290-291) and filled
by the `+=` statements of the innermost body (source lines 366-367). -/
def accumLocals (p : SBParams) (d : ℚ × ℚ × ℚ) : (ℕ → ℚ) × (ℕ → ℚ) :=
  (domContribs p d).foldl localStep (fun _ => 0, fun _ => 0)

/-- The `+=` statements of the innermost body that target the shared output
arrays (source lines 368-371), folded over the same contribution records. -/
def accumShared (p : SBParams) (d : ℚ × ℚ × ℚ) (st : SBState) : SBState :=
  (domContribs p d).foldl sharedStep st

/-- The per-sensor combine loop on the `val` field of
`binned_one_minus_sp` (source lines 380-384): for every cell of the
flattened grid, skip it if the sensor-local volume is zero, otherwise
multiply by one minus the normalized survival probability. -/
def combineVal (dv ds : ℕ → ℚ) (n : ℕ) (v : ℕ → ℚ) : ℕ → ℚ :=
  (List.range n).foldl
    (fun w k => if dv k = 0 then w else Function.update w k (w k * (1 - ds k / dv k)))
    v

/-- The per-sensor combine loop (source lines 373-384) applied to the shared
state. -/
def combineStep (p : SBParams) (dv ds : ℕ → ℚ) (st : SBState) : SBState :=
  { st with
    binned_one_minus_sp :=
      { st.binned_one_minus_sp with
        val := combineVal dv ds (nxyz p) st.binned_one_minus_sp.val } }

/-- The conservative bounding-sphere rejection of a sensor (source lines
279-284): true when the sensor's polar binning certainly falls outside the
binned volume. -/
def domReject (p : SBParams) (d : ℚ × ℚ × ℚ) : Bool :=
  decide (d.1 + p.r_max ≤ p.x_min) || decide (p.x_max ≤ d.1 - p.r_max) ||
  decide (d.2.1 + p.r_max ≤ p.y_min) || decide (p.y_max ≤ d.2.1 - p.r_max) ||
  decide (d.2.2 + p.r_max ≤ p.z_min) || decide (p.z_max ≤ d.2.2 - p.r_max)

/-- Processing of one sensor (one iteration of the loop over `dom_coords`,
source lines 268-384): skip the sensor if the bounding check rejects it,
otherwise accumulate its contributions into the shared arrays and fold its
normalized survival probability into `binned_one_minus_sp`. -/
def processDom (p : SBParams) (d : ℚ × ℚ × ℚ) (st : SBState) : SBState :=
  if domReject p d then st
  else
    combineStep p (accumLocals p d).1 (accumLocals p d).2 (accumShared p d st)

/-- The loop over all sensors (source line 268). -/
def runDoms (p : SBParams) (doms : List (ℚ × ℚ × ℚ)) (st : SBState) : SBState :=
  doms.foldl (fun s d => processDom p d s) st

/-- All configuration assertions of the kernel, in source order: `binwidth >
0`, `oversample >= 1`, `anisotropy is None` (source lines 199-201), the three
grid-bound tolerance checks (source lines 248-250, tolerance `1e-6`), the
overlap-mapping arity check `len(vol_arrays) == nr * ntheta / 2` (source line
252, C integer division) and the five output-array length checks (source
lines 254-259). -/
def configOk (p : SBParams) (st : SBState) : Bool :=
  decide (0 < p.binwidth) &&
  decide (1 ≤ p.oversample) &&
  p.anisotropy.isNone &&
  decide (|p.x_min + (nxOf p : ℚ) * p.binwidth - p.x_max| < 1/1000000) &&
  decide (|p.y_min + (nyOf p : ℚ) * p.binwidth - p.y_max| < 1/1000000) &&
  decide (|p.z_min + (nzOf p : ℚ) * p.binwidth - p.z_max| < 1/1000000) &&
  decide (p.vol_arrays.length = p.nr * p.ntheta / 2) &&
  decide (st.binned_spv.len = nxyz p) &&
  decide (st.binned_px_spv.len = nxyz p) &&
  decide (st.binned_py_spv.len = nxyz p) &&
  decide (st.binned_pz_spv.len = nxyz p) &&
  decide (st.binned_one_minus_sp.len = nxyz p)

/-- The error text surfaced when a configuration assertion fails. -/
def cfgErrMsg : String := "shift_and_bin: assertion failed"

/-- The whole kernel: either all configuration assertions pass and every
sensor is processed into the shared state (second component `none`), or some
assertion fails before any accumulation begins and the caller-owned state is
returned untouched together with the error (second component `some`).  This
mirrors the Python assertion semantics: the asserts of source lines 199-259
all precede the first write to a caller-owned array. -/
def shift_and_bin (p : SBParams) (doms : List (ℚ × ℚ × ℚ)) (st : SBState) :
    SBState × Option String :=
  if configOk p st then (runDoms p doms st, none) else (st, some cfgErrMsg)

/-- The sensor-local accumulated overlap volume visible to the combine step:
zero everywhere when the sensor is rejected by the bounding check (its
scratch is never filled), otherwise the final `dom_binned_vol`. -/
def domTouchedVol (p : SBParams) (d : ℚ × ℚ × ℚ) : ℕ → ℚ :=
  if domReject p d then (fun _ => 0) else (accumLocals p d).1

/-- The sensor-local accumulated survival-probability-times-volume visible to
the combine step, analogous to `domTouchedVol`. -/
def domTouchedSpv (p : SBParams) (d : ℚ × ℚ × ℚ) : ℕ → ℚ :=
  if domReject p d then (fun _ => 0) else (accumLocals p d).2

/-- The factor by which processing one sensor multiplies
`binned_one_minus_sp` at cell `k`: one when the cell is untouched, otherwise
one minus the sensor's normalized survival probability there. -/
def domFactor (p : SBParams) (d : ℚ × ℚ × ℚ) (k : ℕ) : ℚ :=
  if domTouchedVol p d k = 0 then 1
  else 1 - domTouchedSpv p d k / domTouchedVol p d k

/-- A concrete one-cell grid configuration used to exercise the kernel on a
small input: one radial bin, two angular bins (one in the first octant), one
overlap-mapping entry of volume 1 at oversampled offset (0,0,0), unit bin
width, no oversampling, survival probability one half everywhere. -/
def tinyP : SBParams :=
  { ind_arrays := [[(0, 0, 0)]]
    vol_arrays := [[1]]
    survival_prob := fun _ _ => 1/2
    prho := fun _ _ => 1
    pz := fun _ _ => 0
    nr := 1
    ntheta := 2
    r_max := 1
    x_min := 0
    x_max := 1
    y_min := 0
    y_max := 1
    z_min := 0
    z_max := 1
    binwidth := 1
    oversample := 1
    anisotropy := none
    invRho := fun _ _ => 1 }

/-- The configuration `tinyP` with survival probability one everywhere. -/
def tinyP1 : SBParams := { tinyP with survival_prob := fun _ _ => 1 }

/-- The configuration `tinyP` broken by an oversample factor below one. -/
def tinyPbad : SBParams := { tinyP with oversample := 0 }

/-- A configuration with one radial bin and a single, odd angular bin count:
the arity assertion then demands an empty overlap-mapping list. -/
def oddP : SBParams := { tinyP with ntheta := 1, vol_arrays := [], ind_arrays := [] }

/-- A sensor sitting at the lower corner of the `tinyP` grid. -/
def tinyD : ℚ × ℚ × ℚ := (0, 0, 0)

/-- A sensor sitting exactly `r_max` outside the low-x face of the `tinyP`
grid. -/
def farD : ℚ × ℚ × ℚ := (-1, 1/2, 1/2)

/-- Initial caller-owned accumulators for the one-cell grid: sums seeded at
zero and the product accumulator seeded at one. -/
def tinySt : SBState :=
  { binned_spv := ⟨1, fun _ => 0⟩
    binned_px_spv := ⟨1, fun _ => 0⟩
    binned_py_spv := ⟨1, fun _ => 0⟩
    binned_pz_spv := ⟨1, fun _ => 0⟩
    binned_one_minus_sp := ⟨1, fun _ => 1⟩ }

/-! ## Generic fold lemmas -/

/-- A property preserved by every step taken from the list is preserved by the
whole fold. -/
lemma foldl_preserve_mem {α σ : Type} (P : σ → Prop) (step : σ → α → σ) :
    ∀ (l : List α) (init : σ), P init → (∀ s a, a ∈ l → P s → P (step s a)) →
      P (l.foldl step init)
  | [], _, h0, _ => h0
  | a :: l, init, h0, h =>
      foldl_preserve_mem P step l (step init a) (h init a (List.mem_cons_self a l) h0)
        (fun s b hb hs => h s b (List.mem_cons_of_mem a hb) hs)

/-- Evaluating a fold of per-index updates over a duplicate-free index list:
the value at `j` is rewritten exactly once if `j` is listed, otherwise kept. -/
lemma foldl_update_eval (g : ℕ → ℚ → ℚ) :
    ∀ (l : List ℕ), l.Nodup → ∀ (v : ℕ → ℚ) (j : ℕ),
      l.foldl (fun w k => Function.update w k (g k (w k))) v j
        = if j ∈ l then g j (v j) else v j := by
  intro l
  induction l with
  | nil => intro _ v j; simp
  | cons i l ih =>
    intro hnd v j
    rcases List.nodup_cons.mp hnd with ⟨hi, hl⟩
    simp only [List.foldl_cons]
    rw [ih hl]
    by_cases hji : j = i
    · subst hji
      simp [hi, Function.update_same]
    · simp [Function.update_noteq hji, List.mem_cons, hji]

/-- Pointwise evaluation of an `a[k] += x` update. -/
lemma update_add_eval (f : ℕ → ℚ) (i k : ℕ) (x : ℚ) :
    Function.update f i (f i + x) k = f k + (if k = i then x else 0) := by
  by_cases h : k = i
  · subst h; simp
  · simp [Function.update_noteq h, h]

/-! ## Pointwise characterizations of the kernel's loops -/

/-- Pointwise form of the per-sensor combine loop: a cell of the grid with
nonzero sensor-local volume is multiplied by one minus the normalized
survival probability, every other index is untouched. -/
lemma combineVal_eval (dv ds : ℕ → ℚ) (n : ℕ) (v : ℕ → ℚ) (j : ℕ) :
    combineVal dv ds n v j
      = if j < n ∧ dv j ≠ 0 then v j * (1 - ds j / dv j) else v j := by
  have hstep :
      (fun (w : ℕ → ℚ) k =>
          if dv k = 0 then w else Function.update w k (w k * (1 - ds k / dv k)))
        = fun (w : ℕ → ℚ) k =>
            Function.update w k (if dv k = 0 then w k else w k * (1 - ds k / dv k)) := by
    funext w k
    by_cases h : dv k = 0
    · simp [h, Function.update_eq_self]
    · simp [h]
  unfold combineVal
  rw [hstep,
    foldl_update_eval (fun k x => if dv k = 0 then x else x * (1 - ds k / dv k))
      (List.range n) (List.nodup_range n) v j]
  by_cases hj : j < n
  · by_cases hdv : dv j = 0 <;> simp [List.mem_range, hj, hdv]
  · simp [List.mem_range, hj]

/-! ## Shape of the contribution records -/

/-- Any element a list's `getD` returns with default zero is nonnegative when
all the list's elements are. -/
lemma listGetD_nonneg (l : List ℚ) (h : ∀ v ∈ l, 0 ≤ v) (ix : ℕ) :
    0 ≤ l.getD ix 0 := by
  by_cases hix : ix < l.length
  · rw [List.getD_eq_getElem?_getD, List.getElem?_eq_getElem hix]
    exact h _ (List.getElem_mem hix)
  · rw [List.getD_eq_getElem?_getD, List.getElem?_eq_none (le_of_not_lt hix)]
    simp

/-- The volume the kernel reads for entry `ix` of polar bin `j` is
nonnegative when every stored overlap volume is. -/
lemma volEntry_nonneg (p : SBParams) (hvol : ∀ l ∈ p.vol_arrays, ∀ v ∈ l, 0 ≤ v)
    (j ix : ℕ) : 0 ≤ (p.vol_arrays.getD j []).getD ix 0 := by
  by_cases hj : j < p.vol_arrays.length
  · refine listGetD_nonneg _ (fun v hv => hvol _ ?_ v hv) ix
    have houter : p.vol_arrays.getD j [] = p.vol_arrays.get ⟨j, hj⟩ := by
      rw [List.getD_eq_getElem?_getD, List.getElem?_eq_getElem hj]
      simp
    rw [houter]
    exact List.get_mem _ _ _
  · have houter : p.vol_arrays.getD j [] = [] := by
      rw [List.getD_eq_getElem?_getD, List.getElem?_eq_none (le_of_not_lt hj)]
      rfl
    rw [houter]
    simp

/-- A quadrant branch that produces a contribution reports exactly the volume
and spv values it was handed, and a flattened cell index inside the grid. -/
lemma quadContrib_shape {p : SBParams} {dxos dyos z_idx : ℤ} {xo yo : ℕ}
    {pxf pyf spv vol pz2 : ℚ} {q : ℕ} {c : Contrib}
    (hz0 : 0 ≤ z_idx) (hzn : z_idx < (nzOf p : ℤ))
    (h : quadContrib p dxos dyos z_idx xo yo pxf pyf spv vol pz2 q = some c) :
    c.vol = vol ∧ c.spv = spv ∧ c.k < nxyz p := by
  unfold quadContrib at h
  set x_idx := osDiv ((quadXY xo yo q).1 + dxos) p.oversample with hxd
  set y_idx := osDiv ((quadXY xo yo q).2 + dyos) p.oversample with hyd
  by_cases hcond : x_idx < 0 ∨ (nxOf p : ℤ) ≤ x_idx ∨ y_idx < 0 ∨ (nyOf p : ℤ) ≤ y_idx
  · rw [if_pos hcond] at h
    exact absurd h (by simp)
  · rw [if_neg hcond] at h
    push_neg at hcond
    obtain ⟨hx0, hxn, hy0, hyn⟩ := hcond
    obtain rfl := (Option.some.inj h).symm
    refine ⟨rfl, rfl, ?_⟩
    have hA : (0:ℤ) ≤ (nxOf p : ℤ) := Int.natCast_nonneg _
    have hB : (0:ℤ) ≤ (nyOf p : ℤ) := Int.natCast_nonneg _
    have hC : (0:ℤ) ≤ (nzOf p : ℤ) := Int.natCast_nonneg _
    have h1 : x_idx * ((nyOf p : ℤ) * (nzOf p : ℤ))
        ≤ ((nxOf p : ℤ) - 1) * ((nyOf p : ℤ) * (nzOf p : ℤ)) :=
      mul_le_mul_of_nonneg_right (by linarith) (mul_nonneg hB hC)
    have h2 : y_idx * (nzOf p : ℤ) ≤ ((nyOf p : ℤ) - 1) * (nzOf p : ℤ) :=
      mul_le_mul_of_nonneg_right (by linarith) hC
    have hb : x_idx * ((nyOf p : ℤ) * (nzOf p : ℤ)) + y_idx * (nzOf p : ℤ) + z_idx
        < (nxOf p : ℤ) * (nyOf p : ℤ) * (nzOf p : ℤ) := by nlinarith [h1, h2]
    have h0 : (0:ℤ) ≤ x_idx * ((nyOf p : ℤ) * (nzOf p : ℤ)) + y_idx * (nzOf p : ℤ) + z_idx := by
      have := mul_nonneg hx0 (mul_nonneg hB hC)
      have := mul_nonneg hy0 hC
      linarith
    have hcast : ((nxyz p : ℕ) : ℤ) = (nxOf p : ℤ) * (nyOf p : ℤ) * (nzOf p : ℤ) := by
      unfold nxyz
      push_cast
      ring
    exact (Int.toNat_lt h0).mpr (by rw [hcast]; exact hb)

/-- Any contribution of a hemisphere branch carries the entry's volume, an
spv equal to the survival probability at some polar bin of radial index `r`
times that volume, and an in-grid cell index. -/
lemma hemiContribs_shape {p : SBParams} {dxos dyos dzos : ℤ} {r θ xo yo zo : ℕ}
    {vol px_un py_un : ℚ} {hemi : ℕ} {c : Contrib}
    (h : c ∈ hemiContribs p dxos dyos dzos r θ xo yo zo vol px_un py_un hemi) :
    ∃ θ2, c.vol = vol ∧ c.spv = p.survival_prob r θ2 * vol ∧ c.k < nxyz p := by
  unfold hemiContribs at h
  set z_idx := osDiv (hemiZ zo hemi + dzos) p.oversample with hzd
  by_cases hcond : z_idx < 0 ∨ (nzOf p : ℤ) ≤ z_idx
  · rw [if_pos hcond] at h
    exact absurd h (List.not_mem_nil c)
  · rw [if_neg hcond] at h
    push_neg at hcond
    obtain ⟨hz0, hzn⟩ := hcond
    obtain ⟨q, _, hq⟩ := List.mem_filterMap.mp h
    obtain ⟨hv, hs, hk⟩ := quadContrib_shape hz0 hzn hq
    exact ⟨hemiTheta p.ntheta θ hemi, hv, hs, hk⟩

/-- Shape of every contribution record the loop nest produces for one
sensor: its volume is an entry of the overlap-volume mapping (read with the
kernel's defaulted indexing), its spv is a survival probability times that
volume, and its cell index lies inside the flattened grid. -/
lemma domContribs_shape {p : SBParams} {d : ℚ × ℚ × ℚ} {c : Contrib}
    (h : c ∈ domContribs p d) :
    ∃ r θ2 j ix, c.vol = (p.vol_arrays.getD j []).getD ix 0
      ∧ c.spv = p.survival_prob r θ2 * c.vol ∧ c.k < nxyz p := by
  unfold domContribs at h
  simp only [List.mem_flatMap, List.mem_range] at h
  obtain ⟨r, _, θ, _, ix, _, hmem⟩ := h
  unfold entryContribs at hmem
  simp only [List.mem_flatMap, List.mem_range] at hmem
  obtain ⟨hemi, _, hc⟩ := hmem
  obtain ⟨θ2, hv, hs, hk⟩ := hemiContribs_shape hc
  exact ⟨r, θ2, flatPolIdx p r θ, ix, hv, by rw [hv]; exact hs, hk⟩

/-! ## Behaviour of the accumulation folds -/

/-- Cell indices never listed by the contributions are left at their initial
value by the sensor-local accumulation. -/
lemma localsFold_untouched :
    ∀ (l : List Contrib) (lv : (ℕ → ℚ) × (ℕ → ℚ)) (k : ℕ),
      (∀ c ∈ l, c.k ≠ k) →
      (l.foldl localStep lv).1 k = lv.1 k ∧ (l.foldl localStep lv).2 k = lv.2 k := by
  intro l
  induction l with
  | nil => intro lv k _; exact ⟨rfl, rfl⟩
  | cons c l ih =>
    intro lv k h
    have hck : k ≠ c.k := Ne.symm (h c (List.mem_cons_self c l))
    simp only [List.foldl_cons]
    obtain ⟨h1, h2⟩ := ih (localStep lv c) k (fun b hb => h b (List.mem_cons_of_mem c hb))
    rw [h1, h2]
    constructor
    · simp [localStep, Function.update_noteq hck]
    · simp [localStep, Function.update_noteq hck]

/-- When every contribution has its spv equal to its volume, the two
sensor-local scratch arrays stay pointwise equal. -/
lemma localsFold_eq_of :
    ∀ (l : List Contrib) (lv : (ℕ → ℚ) × (ℕ → ℚ)),
      (∀ c ∈ l, c.spv = c.vol) → (∀ k, lv.2 k = lv.1 k) →
      ∀ k, (l.foldl localStep lv).2 k = (l.foldl localStep lv).1 k := by
  intro l
  induction l with
  | nil => intro lv _ h0 k; exact h0 k
  | cons c l ih =>
    intro lv h h0 k
    simp only [List.foldl_cons]
    refine ih (localStep lv c) (fun b hb => h b (List.mem_cons_of_mem c hb)) ?_ k
    intro k2
    have hc := h c (List.mem_cons_self c l)
    show Function.update lv.2 c.k (lv.2 c.k + c.spv) k2
        = Function.update lv.1 c.k (lv.1 c.k + c.vol) k2
    rw [update_add_eval, update_add_eval, h0 k2, hc]

/-- When every contribution has a nonnegative spv dominated by its volume,
the accumulated spv stays nonnegative and dominated by the accumulated
volume. -/
lemma localsFold_bounds :
    ∀ (l : List Contrib) (lv : (ℕ → ℚ) × (ℕ → ℚ)),
      (∀ c ∈ l, 0 ≤ c.spv ∧ c.spv ≤ c.vol) →
      (∀ k, 0 ≤ lv.2 k ∧ lv.2 k ≤ lv.1 k) →
      ∀ k, 0 ≤ (l.foldl localStep lv).2 k ∧
        (l.foldl localStep lv).2 k ≤ (l.foldl localStep lv).1 k := by
  intro l
  induction l with
  | nil => intro lv _ h0 k; exact h0 k
  | cons c l ih =>
    intro lv h h0 k
    simp only [List.foldl_cons]
    refine ih (localStep lv c) (fun b hb => h b (List.mem_cons_of_mem c hb)) ?_ k
    intro k2
    obtain ⟨hc0, hcv⟩ := h c (List.mem_cons_self c l)
    obtain ⟨hl0, hlv⟩ := h0 k2
    constructor
    · show 0 ≤ Function.update lv.2 c.k (lv.2 c.k + c.spv) k2
      rw [update_add_eval]
      by_cases hk : k2 = c.k
      · simp only [if_pos hk]; linarith
      · simp only [if_neg hk]; linarith
    · show Function.update lv.2 c.k (lv.2 c.k + c.spv) k2
          ≤ Function.update lv.1 c.k (lv.1 c.k + c.vol) k2
      rw [update_add_eval, update_add_eval]
      by_cases hk : k2 = c.k
      · simp only [if_pos hk]; linarith
      · simp only [if_neg hk]; linarith

/-- The accumulation into the shared arrays never writes
`binned_one_minus_sp`. -/
lemma accumShared_omsp (p : SBParams) (d : ℚ × ℚ × ℚ) (st : SBState) :
    (accumShared p d st).binned_one_minus_sp = st.binned_one_minus_sp := by
  unfold accumShared
  refine foldl_preserve_mem (fun s => s.binned_one_minus_sp = st.binned_one_minus_sp)
    sharedStep (domContribs p d) st rfl ?_
  intro s c _ hs
  simpa [sharedStep] using hs

/-- Running the shared accumulation and the sensor-local accumulation over
the same contribution list changes `binned_spv` and the local spv scratch by
the same pointwise amount. -/
lemma sharedFold_spv_delta :
    ∀ (l : List Contrib) (st : SBState) (lv : (ℕ → ℚ) × (ℕ → ℚ)) (k : ℕ),
      (l.foldl sharedStep st).binned_spv.val k + lv.2 k
        = st.binned_spv.val k + (l.foldl localStep lv).2 k := by
  intro l
  induction l with
  | nil => intro st lv k; simp
  | cons c l ih =>
    intro st lv k
    simp only [List.foldl_cons]
    have hrec := ih (sharedStep st c) (localStep lv c) k
    have hs : (sharedStep st c).binned_spv.val k
        = st.binned_spv.val k + (if k = c.k then c.spv else 0) := by
      show Function.update st.binned_spv.val c.k (st.binned_spv.val c.k + c.spv) k = _
      rw [update_add_eval]
    have hl : (localStep lv c).2 k = lv.2 k + (if k = c.k then c.spv else 0) := by
      show Function.update lv.2 c.k (lv.2 c.k + c.spv) k = _
      rw [update_add_eval]
    linarith [hrec]

/-! ## Per-sensor characterization -/

/-- Outside the flattened grid the sensor-local volume scratch stays zero. -/
lemma accumLocals_vol_zero_outside (p : SBParams) (d : ℚ × ℚ × ℚ) (k : ℕ)
    (hk : ¬ k < nxyz p) : (accumLocals p d).1 k = 0 := by
  unfold accumLocals
  have hne : ∀ c ∈ domContribs p d, c.k ≠ k := by
    intro c hc he
    obtain ⟨_, _, _, _, _, _, hck⟩ := domContribs_shape hc
    exact hk (he ▸ hck)
  exact (localsFold_untouched (domContribs p d) _ k hne).1

/-- Processing one sensor multiplies each `binned_one_minus_sp` entry by
exactly the sensor's combine factor. -/
lemma processDom_omsp_val (p : SBParams) (d : ℚ × ℚ × ℚ) (st : SBState) (k : ℕ) :
    (processDom p d st).binned_one_minus_sp.val k
      = st.binned_one_minus_sp.val k * domFactor p d k := by
  cases hrej : domReject p d with
  | true =>
    simp [processDom, domFactor, domTouchedVol, domTouchedSpv, hrej]
  | false =>
    simp only [processDom, domFactor, domTouchedVol, domTouchedSpv, hrej,
      Bool.false_eq_true, if_false]
    show combineVal (accumLocals p d).1 (accumLocals p d).2 (nxyz p)
        (accumShared p d st).binned_one_minus_sp.val k = _
    rw [accumShared_omsp p d st, combineVal_eval]
    by_cases hdv : (accumLocals p d).1 k = 0
    · simp [hdv]
    · have hk : k < nxyz p := by
        by_contra hk
        exact hdv (accumLocals_vol_zero_outside p d k hk)
      simp [hdv, hk]

/-- Processing one sensor adds the sensor-local spv (unnormalized) to the
shared `binned_spv` accumulator, pointwise. -/
lemma processDom_spv_val (p : SBParams) (d : ℚ × ℚ × ℚ) (st : SBState) (k : ℕ) :
    (processDom p d st).binned_spv.val k
      = st.binned_spv.val k + domTouchedSpv p d k := by
  cases hrej : domReject p d with
  | true => simp [processDom, domTouchedSpv, hrej]
  | false =>
    simp only [processDom, domTouchedSpv, hrej, Bool.false_eq_true, if_false]
    show (accumShared p d st).binned_spv.val k = st.binned_spv.val k + (accumLocals p d).2 k
    have h2 := sharedFold_spv_delta (domContribs p d) st (fun _ => (0:ℚ), fun _ => (0:ℚ)) k
    simp only [add_zero] at h2
    unfold accumShared accumLocals
    simpa using h2

/-! ## Claims -/

/-- C2: for every first-octant oversampled cell offset (x, y, z) and angular
bin θ, the 8 symmetry branches are computed as: hemisphere branch 0 keeps z
and θ; hemisphere branch 1 maps z to -1-z and θ to ntheta-1-θ; quadrant 0 is
the identity; quadrant 1 maps (x, y) to (-1-y, x) and direction (dx, dy) to
(-dy, dx); quadrant 2 maps (x, y) to (-1-x, -1-y) and negates the direction;
quadrant 3 maps (x, y) to (y, -1-x) and direction (dx, dy) to (dy, -dx). -/
theorem C2_symmetry_branches (nθ θ xo yo zo : ℕ) (dx dy : ℚ) :
    hemiZ zo 0 = (zo : ℤ) ∧ hemiTheta nθ θ 0 = θ
    ∧ hemiZ zo 1 = -1 - (zo : ℤ) ∧ hemiTheta nθ θ 1 = nθ - 1 - θ
    ∧ quadXY xo yo 0 = ((xo : ℤ), (yo : ℤ)) ∧ quadDir dx dy 0 = (dx, dy)
    ∧ quadXY xo yo 1 = (-1 - (yo : ℤ), (xo : ℤ)) ∧ quadDir dx dy 1 = (-dy, dx)
    ∧ quadXY xo yo 2 = (-1 - (xo : ℤ), -1 - (yo : ℤ)) ∧ quadDir dx dy 2 = (-dx, -dy)
    ∧ quadXY xo yo 3 = ((yo : ℤ), -1 - (xo : ℤ)) ∧ quadDir dx dy 3 = (dy, -dx) :=
  ⟨rfl, rfl, rfl, rfl, rfl, rfl, rfl, rfl, rfl, rfl, rfl, rfl⟩

/-- C3 counterexample: the kernel's oversample division is not floor
division.  For the hemisphere-1 reflection of offset z = 0 at a sensor with
oversampled position 0 and oversample factor 2, the kernel computes cell
index 0 (truncation toward zero), while floor division would give -1. -/
theorem C3_counterexample :
    osDiv (hemiZ 0 1 + 0) 2 = 0 ∧ Int.fdiv (hemiZ 0 1 + 0) 2 = -1 := by
  decide

/-- C3 (amended): the final output-grid index is obtained by adding the
sensor's oversampled grid position and dividing by the oversample factor
using C truncating division (rounding toward zero, per cdivision(True)); this
coincides with floor division whenever the shifted numerator is nonnegative,
and in particular always when oversample = 1, but not for negative
numerators with oversample ≥ 2. -/
theorem C3_division_semantics (a b : ℤ) :
    osDiv a b = a.tdiv b ∧ (0 ≤ a → 0 ≤ b → osDiv a b = Int.fdiv a b)
    ∧ (b = 1 → osDiv a b = Int.fdiv a b) := by
  refine ⟨rfl, ?_, ?_⟩
  · intro ha hb
    unfold osDiv
    rw [Int.tdiv_eq_ediv ha hb, Int.fdiv_eq_ediv a hb]
  · intro hb
    subst hb
    unfold osDiv
    rw [Int.tdiv_one, Int.fdiv_one]

/-- Witness for C3: the amended statement applied at the concrete numerator
5 and oversample factor 2. -/
theorem C3_witness : (0:ℤ) ≤ 5 ∧ osDiv 5 2 = Int.fdiv 5 2 :=
  ⟨by decide, (C3_division_semantics 5 2).2.1 (by decide) (by decide)⟩

/-- C5 counterexample: with nr = 1 and the odd angular bin count ntheta = 1,
the arity assertion demands an empty overlap-mapping list (1 × 1 / 2 = 0 in
C integer division), yet the loop visits the flat first-octant polar index 0,
which is out of bounds. -/
theorem C5_counterexample :
    oddP.vol_arrays.length = oddP.nr * oddP.ntheta / 2
    ∧ 0 < oddP.nr ∧ 0 < nthetaInQuad oddP
    ∧ ¬ flatPolIdx oddP 0 0 < oddP.vol_arrays.length := by
  refine ⟨rfl, ?_, ?_, ?_⟩ <;> decide

/-- C5 (amended): for every even ntheta, under the checked precondition that
the overlap mapping has exactly nr × ntheta / 2 entries, every flattened
first-octant polar-bin index visited by the loop (r below nr, θ below
⌈ntheta/2⌉) lies within the overlap-mapping list.  For odd ntheta the claim
fails, see the counterexample. -/
theorem C5_flat_index_inbounds (p : SBParams) (r θ : ℕ)
    (heven : p.ntheta % 2 = 0)
    (hlen : p.vol_arrays.length = p.nr * p.ntheta / 2)
    (hr : r < p.nr) (hθ : θ < nthetaInQuad p) :
    flatPolIdx p r θ < p.vol_arrays.length := by
  obtain ⟨m, hm⟩ : ∃ m, p.ntheta = 2 * m := ⟨p.ntheta / 2, by omega⟩
  have hq : nthetaInQuad p = m := by unfold nthetaInQuad; omega
  have hlen2 : p.vol_arrays.length = p.nr * m := by
    rw [hlen, hm]
    have h2 : p.nr * (2 * m) = p.nr * m * 2 := by ring
    rw [h2, Nat.mul_div_cancel _ (by norm_num : 0 < 2)]
  rw [hlen2]
  unfold flatPolIdx
  rw [hq]
  rw [hq] at hθ
  calc θ + r * m < m + r * m := by omega
    _ = (r + 1) * m := by ring
    _ ≤ p.nr * m := Nat.mul_le_mul_right m (by omega)

/-- Witness for C5: the amended statement applied at the even configuration
`tinyP` (ntheta = 2) and the polar bin r = 0, θ = 0. -/
theorem C5_witness :
    tinyP.ntheta % 2 = 0 ∧ flatPolIdx tinyP 0 0 < tinyP.vol_arrays.length :=
  ⟨by decide, C5_flat_index_inbounds tinyP 0 0 (by decide) (by decide)
    (by decide) (by decide)⟩

/-- C8: a sensor positioned exactly r_max outside a grid face contributes
nothing: its whole per-sensor processing returns the shared state unchanged,
so all five output arrays are untouched (the bounding check rejects it). -/
theorem C8_boundary_sensor_skipped (p : SBParams) (d : ℚ × ℚ × ℚ) (st : SBState)
    (h : d.1 + p.r_max = p.x_min ∨ d.1 - p.r_max = p.x_max
      ∨ d.2.1 + p.r_max = p.y_min ∨ d.2.1 - p.r_max = p.y_max
      ∨ d.2.2 + p.r_max = p.z_min ∨ d.2.2 - p.r_max = p.z_max) :
    processDom p d st = st := by
  have hrej : domReject p d = true := by
    unfold domReject
    rcases h with h|h|h|h|h|h
    · rw [decide_eq_true (le_of_eq h)]
      simp
    · rw [decide_eq_true (le_of_eq h.symm)]
      simp
    · rw [decide_eq_true (le_of_eq h)]
      simp
    · rw [decide_eq_true (le_of_eq h.symm)]
      simp
    · rw [decide_eq_true (le_of_eq h)]
      simp
    · rw [decide_eq_true (le_of_eq h.symm)]
      simp
  unfold processDom
  rw [hrej]
  simp

/-- Witness for C8: the sensor `farD` sits exactly r_max outside the low-x
face of the `tinyP` grid and its processing leaves the state unchanged. -/
theorem C8_witness :
    farD.1 + tinyP.r_max = tinyP.x_min ∧ processDom tinyP farD tinySt = tinySt :=
  ⟨by norm_num [farD, tinyP],
   C8_boundary_sensor_skipped tinyP farD tinySt (Or.inl (by norm_num [farD, tinyP]))⟩

/-- C10: the radicand of the square root in the divisor used to normalize
the azimuthal direction of a first-octant cell is strictly positive: both
bin-center coordinates are at least half an oversampled bin width, since
binwidth > 0 is checked and the cell offsets are unsigned; hence the square
root is strictly positive and the division never divides by zero. -/
theorem C10_rho_norm_divisor_positive (p : SBParams) (xo yo : ℕ)
    (hb : 0 < p.binwidth) (hos : 1 ≤ p.oversample) :
    0 < binCenter p xo
    ∧ 0 < binCenter p xo * binCenter p xo + binCenter p yo * binCenter p yo := by
  have hosq : (0:ℚ) < (p.oversample : ℚ) := by
    have h1 : (1:ℚ) ≤ (p.oversample : ℚ) := by exact_mod_cast hos
    linarith
  have hbw : 0 < os_bw p := div_pos hb hosq
  have hgen : ∀ i : ℕ, 0 < binCenter p i := by
    intro i
    unfold binCenter half_os_bw
    have h0 : (0:ℚ) ≤ (i:ℚ) := Nat.cast_nonneg i
    have h1 := mul_nonneg h0 (le_of_lt hbw)
    linarith
  exact ⟨hgen xo, add_pos (mul_pos (hgen xo) (hgen xo)) (mul_pos (hgen yo) (hgen yo))⟩

/-- Witness for C10: the positivity of the divisor radicand at the `tinyP`
configuration and the corner cell offsets (0, 0). -/
theorem C10_witness :
    0 < tinyP.binwidth ∧ 0 < binCenter tinyP 0 :=
  ⟨by norm_num [tinyP],
   (C10_rho_norm_divisor_positive tinyP 0 0 (by norm_num [tinyP]) (by decide)).1⟩

/-- C1: for every sensor and every output cell whose sensor-local
accumulated overlap volume is nonzero, the kernel multiplies the shared
`binned_one_minus_sp` entry at that cell by one minus local_spv/local_volume;
cells with zero local volume leave `binned_one_minus_sp` unchanged; and the
sensor's spv contributions are added unnormalized (before any division) into
the shared `binned_spv` accumulator. -/
theorem C1_per_sensor_combine (p : SBParams) (d : ℚ × ℚ × ℚ) (st : SBState) (k : ℕ) :
    (domTouchedVol p d k ≠ 0 →
      (processDom p d st).binned_one_minus_sp.val k
        = st.binned_one_minus_sp.val k
            * (1 - domTouchedSpv p d k / domTouchedVol p d k))
    ∧ (domTouchedVol p d k = 0 →
      (processDom p d st).binned_one_minus_sp.val k
        = st.binned_one_minus_sp.val k)
    ∧ (processDom p d st).binned_spv.val k
        = st.binned_spv.val k + domTouchedSpv p d k := by
  refine ⟨?_, ?_, processDom_spv_val p d st k⟩
  · intro h
    rw [processDom_omsp_val]
    unfold domFactor
    rw [if_neg h]
  · intro h
    rw [processDom_omsp_val]
    unfold domFactor
    rw [if_pos h, mul_one]

/-- C4: on any input exhibiting one of the configuration violations — a grid
bound not matching binwidth times the rounded bin count within the 1e-6
tolerance, oversample below one, a non-None anisotropy, an overlap-mapping
bin count differing from nr × ntheta / 2, or any of the five output arrays
having length different from nx*ny*nz — the call fails with the assertion
error and returns the caller-owned accumulators untouched. -/
theorem C4_config_violation_fails_unmutated (p : SBParams)
    (doms : List (ℚ × ℚ × ℚ)) (st : SBState)
    (h : ¬ |p.x_min + (nxOf p : ℚ) * p.binwidth - p.x_max| < 1/1000000
      ∨ ¬ |p.y_min + (nyOf p : ℚ) * p.binwidth - p.y_max| < 1/1000000
      ∨ ¬ |p.z_min + (nzOf p : ℚ) * p.binwidth - p.z_max| < 1/1000000
      ∨ p.oversample < 1
      ∨ p.anisotropy ≠ none
      ∨ p.vol_arrays.length ≠ p.nr * p.ntheta / 2
      ∨ st.binned_spv.len ≠ nxyz p
      ∨ st.binned_px_spv.len ≠ nxyz p
      ∨ st.binned_py_spv.len ≠ nxyz p
      ∨ st.binned_pz_spv.len ≠ nxyz p
      ∨ st.binned_one_minus_sp.len ≠ nxyz p) :
    shift_and_bin p doms st = (st, some cfgErrMsg) := by
  have hcfg : configOk p st = false := by
    unfold configOk
    rcases h with h|h|h|h|h|h|h|h|h|h|h
    · rw [decide_eq_false h]
      simp
    · rw [decide_eq_false h]
      simp
    · rw [decide_eq_false h]
      simp
    · rw [decide_eq_false (not_le.mpr h)]
      simp
    · cases ho : p.anisotropy with
      | none => exact absurd ho h
      | some u => simp [ho]
    · rw [decide_eq_false h]
      simp
    · rw [decide_eq_false h]
      simp
    · rw [decide_eq_false h]
      simp
    · rw [decide_eq_false h]
      simp
    · rw [decide_eq_false h]
      simp
    · rw [decide_eq_false h]
      simp
  unfold shift_and_bin
  rw [hcfg]
  simp

/-- C6: processing two sensors in either order yields an identical final
`binned_one_minus_sp` array at every cell: the per-sensor complement factors
combine by a commutative product, and the configuration checks do not read
the sensor list. -/
theorem C6_sensor_order_commutes (p : SBParams) (d1 d2 : ℚ × ℚ × ℚ)
    (st : SBState) (k : ℕ) :
    (shift_and_bin p [d1, d2] st).1.binned_one_minus_sp.val k
      = (shift_and_bin p [d2, d1] st).1.binned_one_minus_sp.val k := by
  unfold shift_and_bin
  by_cases hcfg : configOk p st = true
  · rw [if_pos hcfg, if_pos hcfg]
    show (runDoms p [d1, d2] st).binned_one_minus_sp.val k
        = (runDoms p [d2, d1] st).binned_one_minus_sp.val k
    unfold runDoms
    simp only [List.foldl_cons, List.foldl_nil]
    rw [processDom_omsp_val, processDom_omsp_val, processDom_omsp_val,
      processDom_omsp_val]
    ring
  · rw [if_neg hcfg, if_neg hcfg]

/-- C7: with survival probability identically one and exactly one sensor,
after the call every cell touched by that sensor (nonzero sensor-local
accumulated overlap volume) holds exactly zero in `binned_one_minus_sp`,
whatever its initial value was. -/
theorem C7_sp_one_kills_touched_cells (p : SBParams) (d : ℚ × ℚ × ℚ)
    (st : SBState) (k : ℕ)
    (hcfg : configOk p st = true)
    (hsp : ∀ r θ, p.survival_prob r θ = 1)
    (hk : domTouchedVol p d k ≠ 0) :
    (shift_and_bin p [d] st).1.binned_one_minus_sp.val k = 0 := by
  unfold shift_and_bin
  rw [if_pos hcfg]
  show (runDoms p [d] st).binned_one_minus_sp.val k = 0
  have hrun : runDoms p [d] st = processDom p d st := by
    unfold runDoms
    simp
  have hds : domTouchedSpv p d k = domTouchedVol p d k := by
    unfold domTouchedSpv domTouchedVol
    cases hrej : domReject p d with
    | true => simp
    | false =>
      simp only [Bool.false_eq_true, if_false]
      unfold accumLocals
      refine localsFold_eq_of (domContribs p d) _ ?_ (fun k2 => rfl) k
      intro c hc
      obtain ⟨r, θ2, j, ix, _, hs2, _⟩ := domContribs_shape hc
      rw [hs2, hsp r θ2, one_mul]
  rw [hrun, processDom_omsp_val]
  unfold domFactor
  rw [if_neg hk, hds, div_self hk]
  ring

/-- C9: if every survival probability lies in [0, 1] and every overlap
volume is nonnegative, each per-sensor combine step multiplies every
`binned_one_minus_sp` entry by a factor in [0, 1]; consequently the entries
are non-increasing under sensor processing and stay in [0, 1] whenever they
start there. -/
theorem C9_combine_factor_in_unit_interval (p : SBParams) (d : ℚ × ℚ × ℚ)
    (st : SBState) (k : ℕ)
    (hsp : ∀ r θ, 0 ≤ p.survival_prob r θ ∧ p.survival_prob r θ ≤ 1)
    (hvol : ∀ l ∈ p.vol_arrays, ∀ v ∈ l, 0 ≤ v) :
    (0 ≤ domFactor p d k ∧ domFactor p d k ≤ 1)
    ∧ (processDom p d st).binned_one_minus_sp.val k
        = st.binned_one_minus_sp.val k * domFactor p d k
    ∧ (0 ≤ st.binned_one_minus_sp.val k → st.binned_one_minus_sp.val k ≤ 1 →
        0 ≤ (processDom p d st).binned_one_minus_sp.val k
        ∧ (processDom p d st).binned_one_minus_sp.val k
            ≤ st.binned_one_minus_sp.val k
        ∧ (processDom p d st).binned_one_minus_sp.val k ≤ 1) := by
  have hfac : 0 ≤ domFactor p d k ∧ domFactor p d k ≤ 1 := by
    unfold domFactor domTouchedVol domTouchedSpv
    cases hrej : domReject p d with
    | true => simp
    | false =>
      simp only [Bool.false_eq_true, if_false]
      by_cases hdv : (accumLocals p d).1 k = 0
      · rw [if_pos hdv]
        norm_num
      · rw [if_neg hdv]
        have hb : 0 ≤ (accumLocals p d).2 k
            ∧ (accumLocals p d).2 k ≤ (accumLocals p d).1 k := by
          unfold accumLocals
          refine localsFold_bounds (domContribs p d) _ ?_ (fun k2 => ⟨le_refl 0, le_refl 0⟩) k
          intro c hc
          obtain ⟨r, θ2, j, ix, hv, hs2, _⟩ := domContribs_shape hc
          have hv0 : 0 ≤ c.vol := hv ▸ volEntry_nonneg p hvol j ix
          obtain ⟨hsp0, hsp1⟩ := hsp r θ2
          constructor
          · rw [hs2]
            exact mul_nonneg hsp0 hv0
          · rw [hs2]
            exact mul_le_of_le_one_left hv0 hsp1
        have hdvpos : 0 < (accumLocals p d).1 k :=
          lt_of_le_of_ne (le_trans hb.1 hb.2) (Ne.symm hdv)
        have hratio0 : 0 ≤ (accumLocals p d).2 k / (accumLocals p d).1 k :=
          div_nonneg hb.1 (le_of_lt hdvpos)
        have hratio1 : (accumLocals p d).2 k / (accumLocals p d).1 k ≤ 1 :=
          (div_le_one hdvpos).mpr hb.2
        constructor
        · linarith
        · linarith
  refine ⟨hfac, processDom_omsp_val p d st k, ?_⟩
  intro h0 h1
  rw [processDom_omsp_val]
  refine ⟨mul_nonneg h0 hfac.1, mul_le_of_le_one_right h0 hfac.2, ?_⟩
  calc st.binned_one_minus_sp.val k * domFactor p d k
      ≤ 1 * 1 := mul_le_mul h1 hfac.2 hfac.1 (by norm_num)
    _ = 1 := by norm_num

/-! ## Concrete evaluations for witnesses -/

/-- Truncating division of zero by one. -/
lemma tdiv_zero_one : Int.tdiv 0 1 = 0 := by decide

/-- Truncating division of minus one by one. -/
lemma tdiv_negone_one : Int.tdiv (-1) 1 = -1 := by decide

/-- The `tinyP` corner sensor is not rejected by the bounding check. -/
lemma tinyP_reject : domReject tinyP tinyD = false := by
  simp only [domReject, Bool.or_eq_false_iff, decide_eq_false_iff_not, tinyP, tinyD]
  norm_num

/-- The `tinyP1` corner sensor is not rejected by the bounding check. -/
lemma tinyP1_reject : domReject tinyP1 tinyD = false := by
  simp only [domReject, Bool.or_eq_false_iff, decide_eq_false_iff_not, tinyP1, tinyP, tinyD]
  norm_num

/-- Truncating division lemma block and staged evaluation of the corner
sensor on the one-cell grid.  The quadrant and hemisphere branch outcomes
are evaluated generically over the photon quantities, for any configuration
whose grid is a single cell with oversample factor one. -/
lemma one_cell_quad0 (p : SBParams) (hos : p.oversample = 1) (hnx : nxOf p = 1)
    (hny : nyOf p = 1) (pxf pyf spv vol pz2 : ℚ) :
    quadContrib p 0 0 0 0 0 pxf pyf spv vol pz2 0
      = some ⟨0, vol, spv, pxf * spv, pyf * spv, pz2 * spv⟩ := by
  norm_num [quadContrib, quadXY, quadDir, osDiv, tdiv_zero_one, hnx, hny, hos]

/-- Quadrant 1 of the corner sensor maps the cell offset to a negative x
index and is dropped. -/
lemma one_cell_quad1 (p : SBParams) (hos : p.oversample = 1)
    (pxf pyf spv vol pz2 : ℚ) :
    quadContrib p 0 0 0 0 0 pxf pyf spv vol pz2 1 = none := by
  norm_num [quadContrib, quadXY, quadDir, osDiv, tdiv_negone_one, tdiv_zero_one, hos]

/-- Quadrant 2 of the corner sensor maps the cell offset to negative x and y
indices and is dropped. -/
lemma one_cell_quad2 (p : SBParams) (hos : p.oversample = 1)
    (pxf pyf spv vol pz2 : ℚ) :
    quadContrib p 0 0 0 0 0 pxf pyf spv vol pz2 2 = none := by
  norm_num [quadContrib, quadXY, quadDir, osDiv, tdiv_negone_one, tdiv_zero_one, hos]

/-- Quadrant 3 of the corner sensor maps the cell offset to a negative y
index and is dropped. -/
lemma one_cell_quad3 (p : SBParams) (hos : p.oversample = 1)
    (pxf pyf spv vol pz2 : ℚ) :
    quadContrib p 0 0 0 0 0 pxf pyf spv vol pz2 3 = none := by
  norm_num [quadContrib, quadXY, quadDir, osDiv, tdiv_negone_one, tdiv_zero_one, hos]

/-- Hemisphere 0 of the corner sensor on a one-cell grid produces exactly
the quadrant-0 contribution. -/
lemma one_cell_hemi0 (p : SBParams) (hos : p.oversample = 1) (hnx : nxOf p = 1)
    (hny : nyOf p = 1) (hnz : nzOf p = 1) (vol px_un py_un : ℚ) :
    hemiContribs p 0 0 0 0 0 0 0 0 vol px_un py_un 0
      = [⟨0, vol, p.survival_prob 0 0 * vol,
          px_un * p.prho 0 0 * (p.survival_prob 0 0 * vol),
          py_un * p.prho 0 0 * (p.survival_prob 0 0 * vol),
          p.pz 0 0 * (p.survival_prob 0 0 * vol)⟩] := by
  rw [hemiContribs]
  norm_num [osDiv, tdiv_zero_one, hemiZ, hemiTheta, hnz, hos,
    List.filterMap_cons, List.filterMap_nil, List.range_succ,
    one_cell_quad0 p hos hnx hny, one_cell_quad1 p hos, one_cell_quad2 p hos,
    one_cell_quad3 p hos]

/-- Hemisphere 1 of the corner sensor maps the cell offset to a negative z
index and contributes nothing. -/
lemma one_cell_hemi1 (p : SBParams) (hos : p.oversample = 1)
    (vol px_un py_un : ℚ) :
    hemiContribs p 0 0 0 0 0 0 0 0 vol px_un py_un 1 = [] := by
  rw [hemiContribs]
  norm_num [osDiv, tdiv_negone_one, hemiZ, hos]

/-- The oversampled bin width of `tinyP` is one. -/
lemma tinyP_osbw : os_bw tinyP = 1 := by norm_num [os_bw, tinyP]

/-- The half oversampled bin width of `tinyP` is one half. -/
lemma tinyP_halfbw : half_os_bw tinyP = 1/2 := by norm_num [half_os_bw, tinyP_osbw]

/-- The inverse oversampled bin width of `tinyP` is one. -/
lemma tinyP_invbw : inv_os_bw tinyP = 1 := by norm_num [inv_os_bw, tinyP_osbw]

/-- The `tinyP` grid has one cell along x. -/
lemma tinyP_nx : nxOf tinyP = 1 := by norm_num [nxOf, tinyP, cround, qfloor]

/-- The `tinyP` grid has one cell along y. -/
lemma tinyP_ny : nyOf tinyP = 1 := by norm_num [nyOf, tinyP, cround, qfloor]

/-- The `tinyP` grid has one cell along z. -/
lemma tinyP_nz : nzOf tinyP = 1 := by norm_num [nzOf, tinyP, cround, qfloor]

/-- The oversampled x index of the corner sensor is zero. -/
lemma tinyP_dx : cround ((tinyD.1 - tinyP.x_min) * inv_os_bw tinyP) = 0 := by
  rw [tinyP_invbw]
  norm_num [tinyD, tinyP, cround, qfloor]

/-- The oversampled y index of the corner sensor is zero. -/
lemma tinyP_dy : cround ((tinyD.2.1 - tinyP.y_min) * inv_os_bw tinyP) = 0 := by
  rw [tinyP_invbw]
  norm_num [tinyD, tinyP, cround, qfloor]

/-- The oversampled z index of the corner sensor is zero. -/
lemma tinyP_dz : cround ((tinyD.2.2 - tinyP.z_min) * inv_os_bw tinyP) = 0 := by
  rw [tinyP_invbw]
  norm_num [tinyD, tinyP, cround, qfloor]

/-- The bin-center coordinate of offset zero on the `tinyP` lattice. -/
lemma tinyP_binc0 : binCenter tinyP 0 = 1/2 := by
  norm_num [binCenter, tinyP_osbw, tinyP_halfbw]

/-- The single overlap entry of `tinyP` contributes once, at cell 0. -/
lemma tinyP_entry :
    entryContribs tinyP 0 0 0 0 0 0 0 0 1 = [⟨0, 1, 1/2, 1/4, 1/4, 0⟩] := by
  rw [entryContribs]
  norm_num [tinyP_binc0, (show tinyP.invRho = (fun _ _ => 1) from rfl),
    List.range_succ, one_cell_hemi0 tinyP rfl tinyP_nx tinyP_ny tinyP_nz,
    one_cell_hemi1 tinyP rfl,
    (show tinyP.survival_prob = (fun _ _ => 1/2) from rfl),
    (show tinyP.prho = (fun _ _ => 1) from rfl),
    (show tinyP.pz = (fun _ _ => 0) from rfl)]

/-- The contribution list of the corner sensor under `tinyP`: a single
record at cell 0 with volume 1 and spv one half. -/
lemma tinyP_contribs : domContribs tinyP tinyD = [⟨0, 1, 1/2, 1/4, 1/4, 0⟩] := by
  rw [domContribs]
  norm_num [tinyP_dx, tinyP_dy, tinyP_dz, nthetaInQuad, flatPolIdx,
    (show tinyP.nr = 1 from rfl), (show tinyP.ntheta = 2 from rfl),
    (show tinyP.vol_arrays = [[1]] from rfl),
    (show tinyP.ind_arrays = [[(0, 0, 0)]] from rfl),
    List.range_succ, tinyP_entry]

/-- Sensor-local accumulators of the corner sensor on the one-cell grid with
survival probability one half: volume 1 and spv one half at cell 0. -/
lemma tinyP_locals :
    (accumLocals tinyP tinyD).1 0 = 1 ∧ (accumLocals tinyP tinyD).2 0 = 1/2 := by
  unfold accumLocals
  rw [tinyP_contribs]
  norm_num [localStep, Function.update_same]

/-- The oversampled bin width of `tinyP1` is one. -/
lemma tinyP1_osbw : os_bw tinyP1 = 1 := by norm_num [os_bw, tinyP1, tinyP]

/-- The half oversampled bin width of `tinyP1` is one half. -/
lemma tinyP1_halfbw : half_os_bw tinyP1 = 1/2 := by norm_num [half_os_bw, tinyP1_osbw]

/-- The inverse oversampled bin width of `tinyP1` is one. -/
lemma tinyP1_invbw : inv_os_bw tinyP1 = 1 := by norm_num [inv_os_bw, tinyP1_osbw]

/-- The `tinyP1` grid has one cell along x. -/
lemma tinyP1_nx : nxOf tinyP1 = 1 := by norm_num [nxOf, tinyP1, tinyP, cround, qfloor]

/-- The `tinyP1` grid has one cell along y. -/
lemma tinyP1_ny : nyOf tinyP1 = 1 := by norm_num [nyOf, tinyP1, tinyP, cround, qfloor]

/-- The `tinyP1` grid has one cell along z. -/
lemma tinyP1_nz : nzOf tinyP1 = 1 := by norm_num [nzOf, tinyP1, tinyP, cround, qfloor]

/-- The oversampled x index of the corner sensor under `tinyP1` is zero. -/
lemma tinyP1_dx : cround ((tinyD.1 - tinyP1.x_min) * inv_os_bw tinyP1) = 0 := by
  rw [tinyP1_invbw]
  norm_num [tinyD, tinyP1, tinyP, cround, qfloor]

/-- The oversampled y index of the corner sensor under `tinyP1` is zero. -/
lemma tinyP1_dy : cround ((tinyD.2.1 - tinyP1.y_min) * inv_os_bw tinyP1) = 0 := by
  rw [tinyP1_invbw]
  norm_num [tinyD, tinyP1, tinyP, cround, qfloor]

/-- The oversampled z index of the corner sensor under `tinyP1` is zero. -/
lemma tinyP1_dz : cround ((tinyD.2.2 - tinyP1.z_min) * inv_os_bw tinyP1) = 0 := by
  rw [tinyP1_invbw]
  norm_num [tinyD, tinyP1, tinyP, cround, qfloor]

/-- The bin-center coordinate of offset zero on the `tinyP1` lattice. -/
lemma tinyP1_binc0 : binCenter tinyP1 0 = 1/2 := by
  norm_num [binCenter, tinyP1_osbw, tinyP1_halfbw]

/-- The single overlap entry of `tinyP1` contributes once, at cell 0. -/
lemma tinyP1_entry :
    entryContribs tinyP1 0 0 0 0 0 0 0 0 1 = [⟨0, 1, 1, 1/2, 1/2, 0⟩] := by
  rw [entryContribs]
  norm_num [tinyP1_binc0, (show tinyP1.invRho = (fun _ _ => 1) from rfl),
    List.range_succ, one_cell_hemi0 tinyP1 rfl tinyP1_nx tinyP1_ny tinyP1_nz,
    one_cell_hemi1 tinyP1 rfl,
    (show tinyP1.survival_prob = (fun _ _ => 1) from rfl),
    (show tinyP1.prho = (fun _ _ => 1) from rfl),
    (show tinyP1.pz = (fun _ _ => 0) from rfl)]

/-- The contribution list of the corner sensor under `tinyP1`: a single
record at cell 0 with volume 1 and spv 1. -/
lemma tinyP1_contribs : domContribs tinyP1 tinyD = [⟨0, 1, 1, 1/2, 1/2, 0⟩] := by
  rw [domContribs]
  norm_num [tinyP1_dx, tinyP1_dy, tinyP1_dz, nthetaInQuad, flatPolIdx,
    (show tinyP1.nr = 1 from rfl), (show tinyP1.ntheta = 2 from rfl),
    (show tinyP1.vol_arrays = [[1]] from rfl),
    (show tinyP1.ind_arrays = [[(0, 0, 0)]] from rfl),
    List.range_succ, tinyP1_entry]

/-- Sensor-local accumulators of the corner sensor on the one-cell grid with
survival probability one: volume 1 and spv 1 at cell 0. -/
lemma tinyP1_locals :
    (accumLocals tinyP1 tinyD).1 0 = 1 ∧ (accumLocals tinyP1 tinyD).2 0 = 1 := by
  unfold accumLocals
  rw [tinyP1_contribs]
  norm_num [localStep, Function.update_same]

/-- The touched volume of cell 0 under `tinyP` is one. -/
lemma tinyP_domVol : domTouchedVol tinyP tinyD 0 = 1 := by
  unfold domTouchedVol
  rw [tinyP_reject]
  simp only [Bool.false_eq_true, if_false]
  exact tinyP_locals.1

/-- The touched volume of cell 0 under `tinyP1` is one. -/
lemma tinyP1_domVol : domTouchedVol tinyP1 tinyD 0 = 1 := by
  unfold domTouchedVol
  rw [tinyP1_reject]
  simp only [Bool.false_eq_true, if_false]
  exact tinyP1_locals.1

/-- Witness for C1: for the corner sensor of the one-cell configuration the
touched volume of cell 0 is nonzero, and the claim's multiplicative update
holds there. -/
theorem C1_witness :
    domTouchedVol tinyP tinyD 0 ≠ 0
    ∧ (processDom tinyP tinyD tinySt).binned_one_minus_sp.val 0
        = tinySt.binned_one_minus_sp.val 0
            * (1 - domTouchedSpv tinyP tinyD 0 / domTouchedVol tinyP tinyD 0) := by
  have hne : domTouchedVol tinyP tinyD 0 ≠ 0 := by
    rw [tinyP_domVol]
    norm_num
  exact ⟨hne, (C1_per_sensor_combine tinyP tinyD tinySt 0).1 hne⟩

/-- Witness for C4: breaking the oversample precondition makes the call fail
with the assertion error and leaves the caller-owned state untouched. -/
theorem C4_witness :
    tinyPbad.oversample < 1
    ∧ shift_and_bin tinyPbad [] tinySt = (tinySt, some cfgErrMsg) := by
  have h : tinyPbad.oversample < 1 := by decide
  exact ⟨h, C4_config_violation_fails_unmutated tinyPbad [] tinySt
    (Or.inr (Or.inr (Or.inr (Or.inl h))))⟩

/-- The flattened `tinyP1` grid has a single cell. -/
lemma tinyP1_nxyz : nxyz tinyP1 = 1 := by
  rw [nxyz, tinyP1_nx, tinyP1_ny, tinyP1_nz]

/-- The `tinyP1` configuration passes every configuration assertion against
the seeded one-cell accumulators. -/
lemma tinyP1_cfg : configOk tinyP1 tinySt = true := by
  have h1 : (0:ℚ) < tinyP1.binwidth := by norm_num [tinyP1, tinyP]
  have h2 : (1:ℤ) ≤ tinyP1.oversample := by decide
  have h4 : |tinyP1.x_min + (nxOf tinyP1 : ℚ) * tinyP1.binwidth - tinyP1.x_max|
      < 1/1000000 := by
    rw [tinyP1_nx]
    norm_num [tinyP1, tinyP]
  have h5 : |tinyP1.y_min + (nyOf tinyP1 : ℚ) * tinyP1.binwidth - tinyP1.y_max|
      < 1/1000000 := by
    rw [tinyP1_ny]
    norm_num [tinyP1, tinyP]
  have h6 : |tinyP1.z_min + (nzOf tinyP1 : ℚ) * tinyP1.binwidth - tinyP1.z_max|
      < 1/1000000 := by
    rw [tinyP1_nz]
    norm_num [tinyP1, tinyP]
  have h7 : tinyP1.vol_arrays.length = tinyP1.nr * tinyP1.ntheta / 2 := by decide
  have h8 : tinySt.binned_spv.len = nxyz tinyP1 := by
    rw [tinyP1_nxyz]
    rfl
  have h9 : tinySt.binned_px_spv.len = nxyz tinyP1 := by
    rw [tinyP1_nxyz]
    rfl
  have h10 : tinySt.binned_py_spv.len = nxyz tinyP1 := by
    rw [tinyP1_nxyz]
    rfl
  have h11 : tinySt.binned_pz_spv.len = nxyz tinyP1 := by
    rw [tinyP1_nxyz]
    rfl
  have h12 : tinySt.binned_one_minus_sp.len = nxyz tinyP1 := by
    rw [tinyP1_nxyz]
    rfl
  unfold configOk
  rw [decide_eq_true h1, decide_eq_true h2, decide_eq_true h4, decide_eq_true h5,
    decide_eq_true h6, decide_eq_true h7, decide_eq_true h8, decide_eq_true h9,
    decide_eq_true h10, decide_eq_true h11, decide_eq_true h12]
  rfl

/-- Witness for C7: with survival probability one everywhere, the call on
the single corner sensor drives `binned_one_minus_sp` of the touched cell
from its seed value one to exactly zero. -/
theorem C7_witness :
    domTouchedVol tinyP1 tinyD 0 ≠ 0
    ∧ (shift_and_bin tinyP1 [tinyD] tinySt).1.binned_one_minus_sp.val 0 = 0 := by
  have hne : domTouchedVol tinyP1 tinyD 0 ≠ 0 := by
    rw [tinyP1_domVol]
    norm_num
  exact ⟨hne, C7_sp_one_kills_touched_cells tinyP1 tinyD tinySt 0 tinyP1_cfg
    (fun r θ => rfl) hne⟩

/-- Witness for C9: the combine factor of the corner sensor on the one-cell
configuration lies in the unit interval. -/
theorem C9_witness :
    0 ≤ domFactor tinyP tinyD 0 ∧ domFactor tinyP tinyD 0 ≤ 1 := by
  have hsp : ∀ r θ, 0 ≤ tinyP.survival_prob r θ ∧ tinyP.survival_prob r θ ≤ 1 := by
    intro r θ
    constructor <;> norm_num [tinyP]
  have hvol : ∀ l ∈ tinyP.vol_arrays, ∀ v ∈ l, 0 ≤ v := by
    intro l hl v hv
    simp only [tinyP, List.mem_singleton] at hl
    subst hl
    simp only [List.mem_singleton] at hv
    subst hv
    norm_num
  exact (C9_combine_factor_in_unit_interval tinyP tinyD tinySt 0 hsp hvol).1
